import Mathlib

/-!
Verification development for the COVID ETL pipeline transform stage
(`src/transform.py`).  The Python functions `to_snake_case`,
`normalize_columns`, `process_country_df` and its inner helpers
`safe_growth` and `classify` are shallowly embedded below; pandas
DataFrames become a `Frame` of named columns over heterogeneous cells,
pandas/series failures become `Except Err`.
-/

set_option maxHeartbeats 1000000

/- ================= Characters and the column normalizer ================= -/

/-- ASCII upper-case letter test (the regex class `[A-Z]`). -/
def isUpperA (c : Char) : Bool := decide (65 ≤ c.toNat ∧ c.toNat ≤ 90)

/-- ASCII lower-case letter test (the regex class `[a-z]`). -/
def isLowerA (c : Char) : Bool := decide (97 ≤ c.toNat ∧ c.toNat ≤ 122)

/-- ASCII digit test (the regex class `[0-9]`). -/
def isDigitA (c : Char) : Bool := decide (48 ≤ c.toNat ∧ c.toNat ≤ 57)

/-- Does the list start with an ASCII lower-case letter?  Used for the
`[a-z]+` part of the first regex of `to_snake_case`. -/
def headLowerA : List Char → Bool
  | [] => false
  | e :: _ => isLowerA e

/-- One pass of `re.sub('(.)([A-Z][a-z]+)', r'\1_\2', s)`: scan left to
right; at a match, keep the matched text and insert an underscore after
the first character; resume after the (greedy) lower-case run.  The
fuel argument is only a structural-recursion device: the wrapper `sub1`
supplies `l.length`, which the scan never exhausts, so the `0` case is
never reached on the wrapper's calls. -/
def sub1Fuel : Nat → List Char → List Char
  | 0, l => l
  | _ + 1, [] => []
  | _ + 1, [c] => [c]
  | n + 1, c :: d :: rest =>
    if !(c == '\n') && isUpperA d && headLowerA rest then
      c :: '_' :: d :: (rest.takeWhile isLowerA ++ sub1Fuel n (rest.dropWhile isLowerA))
    else
      c :: sub1Fuel n (d :: rest)

/-- The first regex substitution of `to_snake_case`. -/
def sub1 (l : List Char) : List Char := sub1Fuel l.length l

/-- Model of `re.sub('([a-z0-9])([A-Z])', r'\1_\2', s)`: insert an underscore
between a lower-case letter or digit and a following upper-case letter,
scanning left to right with non-overlapping matches. -/
def sub2 : List Char → List Char
  | [] => []
  | [c] => [c]
  | c :: d :: rest =>
    if (isLowerA c || isDigitA c) && isUpperA d then
      c :: '_' :: d :: sub2 rest
    else
      c :: sub2 (d :: rest)

/-- Model of `s.replace(" ", "_")`, applied per character. -/
def spaceFix (c : Char) : Char := if c = ' ' then '_' else c

/-- The character class kept by `re.sub(r'[^0-9a-zA-Z_]+', "", s)`. -/
def keepChar (c : Char) : Bool := isDigitA c || isLowerA c || isUpperA c || c = '_'

/-- Model of `str.lower()` restricted to ASCII.  In `to_snake_case` lowering runs
after the strip step, whose survivors are all ASCII, where Python's
`lower` is exactly this map. -/
def pyLower (c : Char) : Char := if isUpperA c then Char.ofNat (c.toNat + 32) else c

/-- The character class `[a-z0-9_]` of normalizer outputs. -/
def lowClass (c : Char) : Bool := isDigitA c || isLowerA c || c = '_'

/-- Embedding of `transform.to_snake_case`, stage by stage in the source's order:
camelCase regex, lower-upper regex, space replacement, strip of
non-word characters, lower-casing. -/
def to_snake_case (s : String) : String :=
  String.mk ((((sub2 (sub1 s.data)).map spaceFix).filter keepChar).map pyLower)

/- ================= Cells, frames, errors ================= -/

/-- A pandas cell: missing (NaN/NaT), an integer, a float (modelled as a
rational), a string, or a parsed timestamp on an abstract integer
timeline measured in days. -/
inductive Val where
  | na
  | int (n : Int)
  | rat (q : Rat)
  | str (s : String)
  | date (d : Int)
deriving DecidableEq

/-- Errors leaving `process_country_df`: a date that
`pd.to_datetime` cannot parse, or any other raised error
(`ValueError`/`KeyError` and friends). -/
inductive Err where
  | unparseableDate
  | other
deriving DecidableEq

/-- A DataFrame: ordered column labels plus rows of cells, addressed
positionally. -/
structure Frame where
  cols : List String
  rows : List (List Val)
deriving DecidableEq

/-- Embedding of `transform.normalize_columns`: copy the frame and rename every
column with `to_snake_case`; values untouched. -/
def normalize_columns (df : Frame) : Frame :=
  { df with cols := df.cols.map to_snake_case }

/-- Model of `df.empty`: true when either axis has length zero. -/
def Frame.isEmptyF (df : Frame) : Prop := df.rows = [] ∨ df.cols = []

instance (df : Frame) : Decidable df.isEmptyF := by
  unfold Frame.isEmptyF; infer_instance

/- ================= Small list machinery ================= -/

/-- Does `l` start with `pat`? -/
def matchesAt : List Char → List Char → Bool
  | [], _ => true
  | _ :: _, [] => false
  | p :: ps, c :: cs => p == c && matchesAt ps cs

/-- Does `l` contain `pat` as a contiguous subsequence?  Models the
Python `in` test on strings. -/
def containsSeq (pat : List Char) : List Char → Bool
  | [] => matchesAt pat []
  | c :: t => matchesAt pat (c :: t) || containsSeq pat t

/-- Model of the Python `pat in s` test on strings. -/
def strContains (s pat : String) : Bool := containsSeq pat.data s.data

/-- Positions of the columns carrying a given label (pandas label-based
indexing selects all of them). -/
def idxsOf (name : String) (cols : List String) : List Nat :=
  (List.range cols.length).filter (fun i => cols.getD i "" = name)

/-- Sequencing of per-element fallible computations, as a raised
exception aborts a pandas column operation at the first bad element. -/
def mapME (f : α → Except Err β) : List α → Except Err (List β)
  | [] => .ok []
  | a :: l =>
    match f a with
    | .error e => .error e
    | .ok b =>
      match mapME f l with
      | .error e => .error e
      | .ok bs => .ok (b :: bs)

/- ================= Date parsing (pd.to_datetime) ================= -/

/-- Split a character list at `-` separators, as `s.split("-")` would. -/
def splitDash : List Char → List (List Char)
  | [] => [[]]
  | c :: t =>
    match splitDash t with
    | [] => [[]]
    | g :: gs => if c = '-' then [] :: g :: gs else (c :: g) :: gs

/-- Is the group a non-empty run of ASCII digits? -/
def allDigits (l : List Char) : Bool := !l.isEmpty && l.all isDigitA

/-- Decimal value of a digit run. -/
def digitsToNat (l : List Char) : Nat := l.foldl (fun a c => a * 10 + (c.toNat - 48)) 0

/-- Days since 1970-01-01 of a proleptic-Gregorian civil date
(the days-from-civil algorithm), pinning the abstract timeline of
`Val.date` to real calendar days. -/
def daysFromCivil (y m d : Nat) : Int :=
  let y2 : Nat := y - (if m ≤ 2 then 1 else 0)
  let era : Nat := y2 / 400
  let yoe : Nat := y2 % 400
  let doy : Nat := (153 * (if 2 < m then m - 3 else m + 9) + 2) / 5 + d - 1
  let doe : Nat := yoe * 365 + yoe / 4 - yoe / 100 + doy
  (era * 146097 + doe : Int) - 719468

/-- The slice of `pd.to_datetime` string parsing the pipeline relies
on: ISO `YYYY-MM-DD` dates.  Anything else is unparseable. -/
def parseDate (s : String) : Option Int :=
  match splitDash s.data with
  | [ys, ms, ds] =>
    if allDigits ys && allDigits ms && allDigits ds then
      let y := digitsToNat ys
      let m := digitsToNat ms
      let d := digitsToNat ds
      if 1 ≤ m ∧ m ≤ 12 ∧ 1 ≤ d ∧ d ≤ 31 then some (daysFromCivil y m d) else none
    else none
  | _ => none

/-- Truncation toward zero, as numpy rounds when casting floats to
integers. -/
def ratTrunc (q : Rat) : Int := q.num.sign * ((q.num.natAbs / q.den : Nat) : Int)

/-- Model of `pd.to_datetime` on one cell: NaN stays NaT, numbers become
timestamps, timestamps pass through, strings must parse (a parse
failure is the fatal per-country error).  Fractional timestamps are
truncated; no claim depends on fractional cells in a date column. -/
def toDatetimeVal : Val → Except Err Val
  | .na => .ok .na
  | .int n => .ok (.date n)
  | .rat q => .ok (.date (ratTrunc q))
  | .date d => .ok (.date d)
  | .str s =>
    match parseDate s with
    | some d => .ok (.date d)
    | none => .error .unparseableDate

/-- Model of `df[name] = pd.to_datetime(df[name])`.  With a unique label the
column is converted cell by cell.  A missing label raises `KeyError`;
a duplicated label selects a two-column DataFrame, on which
`pd.to_datetime` raises because the labels are not year/month/day —
both surface as `Err.other`. -/
def toDatetimeCol (name : String) (df : Frame) : Except Err Frame :=
  match idxsOf name df.cols with
  | [i] =>
    match mapME (fun r =>
        match toDatetimeVal (r.getD i .na) with
        | .error e => .error e
        | .ok v => .ok (r.set i v)) df.rows with
    | .error e => .error e
    | .ok rows => .ok { df with rows := rows }
  | _ => .error .other

/- ================= Time-window filter and sort ================= -/

/-- The mask `(df[date] >= today - 30 days) & (df[date] <= today)` on
one row: true only for an actual timestamp inside the inclusive
window; NaT compares false and is dropped. -/
def inWindow (today : Int) (i : Nat) (r : List Val) : Bool :=
  match r.getD i .na with
  | .date d => decide (today - 30 ≤ d ∧ d ≤ today)
  | _ => false

/-- Model of `df = df[(df[date] >= last_30_days) & (df[date] <= today)]`.  The
label is unique whenever this is reached (a duplicate already raised
in the preceding conversion), so the first position is used. -/
def filterWindow (today : Int) (name : String) (df : Frame) : Frame :=
  match idxsOf name df.cols with
  | i :: _ => { df with rows := df.rows.filter (inWindow today i) }
  | [] => df

/-- Sort key of a row: the timestamp in the date column.  At the point
of sorting every surviving cell of that column is a `.date`. -/
def dateKey (i : Nat) (r : List Val) : Int :=
  match r.getD i .na with
  | .date d => d
  | .int n => n
  | _ => 0

/-- Reordering performed by `df.sort_values(date_col)` once the label is
resolved: rows ascending by the date column.  A duplicated label cannot
reach this point (the earlier conversion already raised), so the first
position is used. -/
def sortByCol (name : String) (df : Frame) : Frame :=
  match idxsOf name df.cols with
  | i :: _ =>
    { df with rows := df.rows.insertionSort (fun a b => dateKey i a ≤ dateKey i b) }
  | [] => df

/-- Model of `df = df.sort_values(date_col)`: resolve the label — a missing
label raises `KeyError`, which happens when the selected date column was
the `cases` column and the rename removed it — then reorder. -/
def sortValues (name : String) (df : Frame) : Except Err Frame :=
  if idxsOf name df.cols = [] then .error .other else .ok (sortByCol name df)

/- ================= Confirmed column handling ================= -/

/-- Model of `df.rename(columns={"cases": "confirmed"})` (every column with that
label). -/
def renameCasesToConfirmed (df : Frame) : Frame :=
  { df with cols := df.cols.map (fun c => if c = "cases" then "confirmed" else c) }

/-- Column assignment `df[name] = vals`: overwrite an existing column
in place or append a new one at the end.  Duplicate target labels do
not occur on the assignments performed by the pipeline under the
no-duplicate-columns conditions of the theorems below; the first
position is written. -/
def setCol (name : String) (vals : List Val) (df : Frame) : Frame :=
  match idxsOf name df.cols with
  | [] => { cols := df.cols ++ [name], rows := List.zipWith (fun r v => r ++ [v]) df.rows vals }
  | i :: _ => { df with rows := List.zipWith (fun r v => r.set i v) df.rows vals }

/-- Model of `.fillna(0).astype(int)` on one cell: missing becomes 0, numbers
become integers (floats truncated toward zero), timestamps their day
number, and a string must be an integer literal or `int()` raises
`ValueError`. -/
def astypeIntVal : Val → Except Err Int
  | .na => .ok 0
  | .int n => .ok n
  | .rat q => .ok (ratTrunc q)
  | .date d => .ok d
  | .str s =>
    match s.toInt? with
    | some n => .ok n
    | none => .error .other

/-- Model of `df["confirmed"] = df["confirmed"].fillna(0).astype(int)` on the
column at position `i`. -/
def coerceColAt (i : Nat) (df : Frame) : Except Err Frame :=
  match mapME (fun r =>
      match astypeIntVal (r.getD i .na) with
      | .error e => .error e
      | .ok n => .ok (r.set i (.int n))) df.rows with
  | .error e => .error e
  | .ok rows => .ok { df with rows := rows }

/-- Apply the coercion to every position labelled `confirmed`. -/
def coerceIdxs : List Nat → Frame → Except Err Frame
  | [], df => .ok df
  | i :: is, df =>
    match coerceColAt i df with
    | .error e => .error e
    | .ok df2 => coerceIdxs is df2

/-- The whole confirmed-coercion statement of the source. -/
def coerceConfirmed (df : Frame) : Except Err Frame :=
  coerceIdxs (idxsOf "confirmed" df.cols) df

/-- Read a whole-column integer series for `.diff()`/`.shift()`.  By
this point the cells are `.int` (just coerced); a duplicated label
would make the subsequent single-column assignment raise. -/
def cellInt : Val → Int
  | .int n => n
  | .date d => d
  | .rat q => ratTrunc q
  | _ => 0

def getSingleIntCol (name : String) (df : Frame) : Except Err (List Int) :=
  match idxsOf name df.cols with
  | [i] => .ok (df.rows.map (fun r => cellInt (r.getD i .na)))
  | _ => .error .other

/- ================= Metric calculator ================= -/

/-- Model of `df["confirmed"].diff().fillna(df["confirmed"]).astype(int)`:
day-over-day differences, with the predecessor-less first row filled
by its own confirmed value. -/
def newCasesOf : List Int → List Int
  | [] => []
  | c :: rest => c :: List.zipWith (fun a b => a - b) rest (c :: rest)

/-- Model of `df["confirmed"].shift(1).fillna(0).astype(int)`: the previous
row's confirmed value, 0 for the first row. -/
def prevConfirmedOf : List Int → List Int
  | [] => []
  | c :: rest => 0 :: (c :: rest).dropLast

/-- Inner `safe_growth` of `process_country_df`: guarded division,
exactly `0.0` unless the previous count is positive.  The quotient is
built with `mkRat`; the theorems below identify it with true division
of the two counts. -/
def safe_growth (new_cases prev : Int) : Rat :=
  if 0 < prev then mkRat new_cases prev.toNat else 0

/-- Model of `int(df["confirmed"].max())`, with the source's explicit 0 for an
empty frame handled at the call site. -/
def maxOf : List Int → Int
  | [] => 0
  | h :: t => t.foldl max h

/- ================= Risk classifier ================= -/

/-- The risk-threshold mapping: `low`/`medium` read with defaults 1000
and 10000; `high` is carried by the configuration but never consulted. -/
structure Thresholds where
  low : Option Int
  medium : Option Int
  high : Option Int
deriving DecidableEq

/-- Inner `classify` of `process_country_df`. -/
def classify (th : Thresholds) (n : Int) : String :=
  if th.medium.getD 10000 < n then "alto"
  else if th.low.getD 1000 < n then "medio"
  else "bajo"

/-- The per-country summary record. -/
structure Totals where
  country : String
  total_confirmed : Int
  total_new_cases : Int
deriving DecidableEq

/- ================= Country processor ================= -/

/-- The date-column rule: first column whose (already normalized) name
contains `date`, else the first column. -/
def pickDateCol (cols : List String) : String :=
  match cols.find? (fun c => strContains c "date") with
  | some c => c
  | none => cols.headD ""

/-- First position of a label, for the row-wise reads of
`df.apply(..., axis=1)` and `df["new_cases"].apply(classify)`. -/
def colIdx (name : String) (df : Frame) : Nat := (idxsOf name df.cols).headD 0

/-- Embedding of `transform.process_country_df`.  `today` stands for the
`datetime.today()` instant the source reads from the ambient clock;
the window is the inclusive 30 days before it. -/
def process_country_df (today : Int) (df0 : Frame) (country : String) (th : Thresholds) :
    Except Err (Frame × Totals) :=
  if df0.isEmptyF then
    .ok (df0, { country := country, total_confirmed := 0, total_new_cases := 0 })
  else
    let df1 := normalize_columns df0
    let dateCol := pickDateCol df1.cols
    match toDatetimeCol dateCol df1 with
    | .error e => .error e
    | .ok dfA =>
      let dfB := filterWindow today dateCol dfA
      match toDatetimeCol dateCol dfB with
      | .error e => .error e
      | .ok dfC =>
        let dfD := if "confirmed" ∉ dfC.cols ∧ "cases" ∈ dfC.cols then
            renameCasesToConfirmed dfC else dfC
        let dfE := if "confirmed" ∉ dfD.cols then
            setCol "confirmed" (dfD.rows.map (fun _ => Val.int 0)) dfD else dfD
        match coerceConfirmed dfE with
        | .error e => .error e
        | .ok dfF =>
          match sortValues dateCol dfF with
          | .error e => .error e
          | .ok dfG =>
            match getSingleIntCol "confirmed" dfG with
            | .error e => .error e
            | .ok c =>
              let nc := newCasesOf c
              let dfH := setCol "new_cases" (nc.map Val.int) dfG
              let prev := prevConfirmedOf c
              let dfI := setCol "prev_confirmed" (prev.map Val.int) dfH
              let gr := dfI.rows.map (fun r =>
                safe_growth (cellInt (r.getD (colIdx "new_cases" dfI) .na))
                  (cellInt (r.getD (colIdx "prev_confirmed" dfI) .na)))
              let dfJ := setCol "growth_rate" (gr.map Val.rat) dfI
              let risdef := dfJ.rows.map (fun r =>
                Val.str (classify th (cellInt (r.getD (colIdx "new_cases" dfJ) .na))))
              let dfK := setCol "risk" risdef dfJ
              let dfL := setCol "country" (dfK.rows.map (fun _ => Val.str country)) dfK
              let totals : Totals := { country := country
                                       total_confirmed := if dfL.isEmptyF then 0 else maxOf c
                                       total_new_cases := if dfL.isEmptyF then 0 else (newCasesOf c).sum }
              .ok (dfL, totals)

/- ================= Lemmas: character classes ================= -/

theorem pyLower_eq_self {c : Char} (h : isUpperA c = false) : pyLower c = c := by
  unfold pyLower
  rw [h]
  rfl

theorem toNat_pyLower_of_upper {c : Char} (h : isUpperA c = true) :
    (pyLower c).toNat = c.toNat + 32 := by
  unfold pyLower
  rw [h]
  simp only [if_pos]
  have hb : 65 ≤ c.toNat ∧ c.toNat ≤ 90 := by
    have := of_decide_eq_true h
    exact this
  obtain ⟨h1, h2⟩ := hb
  set n := c.toNat with hn
  have : 65 ≤ n ∧ n ≤ 90 := ⟨h1, h2⟩
  clear_value n
  obtain ⟨h1, h2⟩ := this
  interval_cases n <;> decide

theorem lowClass_pyLower_of_keep {c : Char} (h : keepChar c = true) :
    lowClass (pyLower c) = true := by
  simp only [keepChar, isDigitA, isLowerA, isUpperA, Bool.or_eq_true, decide_eq_true_eq] at h
  rcases h with ((hd | hl) | hu) | he
  · have hnu : isUpperA c = false := by
      simp only [isUpperA, decide_eq_false_iff_not]
      omega
    rw [pyLower_eq_self hnu]
    simp only [lowClass, isDigitA, isLowerA, Bool.or_eq_true, decide_eq_true_eq]
    exact Or.inl (Or.inl hd)
  · have hnu : isUpperA c = false := by
      simp only [isUpperA, decide_eq_false_iff_not]
      omega
    rw [pyLower_eq_self hnu]
    simp only [lowClass, isDigitA, isLowerA, Bool.or_eq_true, decide_eq_true_eq]
    exact Or.inl (Or.inr hl)
  · have hu2 : isUpperA c = true := by
      simp only [isUpperA, decide_eq_true_eq]
      exact hu
    have hto : (pyLower c).toNat = c.toNat + 32 := toNat_pyLower_of_upper hu2
    simp only [lowClass, isDigitA, isLowerA, Bool.or_eq_true, decide_eq_true_eq]
    refine Or.inl (Or.inr ?_)
    omega
  · subst he
    decide

theorem lowClass_props {c : Char} (h : lowClass c = true) :
    isUpperA c = false ∧ spaceFix c = c ∧ keepChar c = true ∧ pyLower c = c := by
  simp only [lowClass, isDigitA, isLowerA, Bool.or_eq_true, decide_eq_true_eq] at h
  have hnotup : isUpperA c = false := by
    simp only [isUpperA, decide_eq_false_iff_not]
    rcases h with (hd | hl) | he
    · omega
    · omega
    · subst he; decide
  refine ⟨hnotup, ?_, ?_, pyLower_eq_self hnotup⟩
  · unfold spaceFix
    rcases h with (hd | hl) | he
    · rw [if_neg]
      intro hc
      subst hc
      exact absurd hd (by decide)
    · rw [if_neg]
      intro hc
      subst hc
      exact absurd hl (by decide)
    · subst he; decide
  · simp only [keepChar, isDigitA, isLowerA, isUpperA, Bool.or_eq_true, decide_eq_true_eq]
    rcases h with (hd | hl) | he
    · exact Or.inl (Or.inl (Or.inl hd))
    · exact Or.inl (Or.inl (Or.inr hl))
    · exact Or.inr he

/- ================= Lemmas: the normalizer fixes its own outputs ================= -/

theorem sub1Fuel_id (n : Nat) : ∀ l : List Char, (∀ c ∈ l, isUpperA c = false) →
    sub1Fuel n l = l := by
  induction n with
  | zero => intro l _; rfl
  | succ n ih =>
    intro l h
    match l with
    | [] => rfl
    | [c] => rfl
    | c :: d :: rest =>
      have hd : isUpperA d = false := h d (by simp)
      rw [sub1Fuel, hd]
      simp only [Bool.and_false, Bool.false_and, Bool.false_or, if_false, Bool.and_true]
      exact congrArg (c :: ·) (ih (d :: rest) (fun x hx => h x (List.mem_cons_of_mem _ hx)))

theorem sub1_id {l : List Char} (h : ∀ c ∈ l, isUpperA c = false) : sub1 l = l :=
  sub1Fuel_id l.length l h

theorem sub2_id : ∀ l : List Char, (∀ c ∈ l, isUpperA c = false) → sub2 l = l
  | [], _ => rfl
  | [_], _ => rfl
  | c :: d :: rest, h => by
    have hd : isUpperA d = false := h d (by simp)
    rw [sub2, hd]
    simp only [Bool.and_false, if_false]
    exact congrArg (c :: ·) (sub2_id (d :: rest) (fun x hx => h x (List.mem_cons_of_mem _ hx)))

theorem map_id_of_fix {f : α → α} : ∀ l : List α, (∀ a ∈ l, f a = a) → l.map f = l
  | [], _ => rfl
  | a :: t, h => by
    rw [List.map_cons, h a (by simp), map_id_of_fix t (fun x hx => h x (List.mem_cons_of_mem _ hx))]

theorem to_snake_case_data (s : String) :
    (to_snake_case s).data =
      (((sub2 (sub1 s.data)).map spaceFix).filter keepChar).map pyLower := rfl

theorem lowClass_to_snake_case (s : String) :
    ∀ c ∈ (to_snake_case s).data, lowClass c = true := by
  intro c hc
  rw [to_snake_case_data] at hc
  obtain ⟨b, hb, rfl⟩ := List.mem_map.mp hc
  exact lowClass_pyLower_of_keep (List.of_mem_filter hb)

theorem to_snake_case_idem (s : String) :
    to_snake_case (to_snake_case s) = to_snake_case s := by
  have hall := lowClass_to_snake_case s
  have hnu : ∀ c ∈ (to_snake_case s).data, isUpperA c = false :=
    fun c hc => (lowClass_props (hall c hc)).1
  show String.mk _ = _
  rw [sub1_id hnu, sub2_id _ hnu,
    map_id_of_fix _ (fun c hc => (lowClass_props (hall c hc)).2.1),
    List.filter_eq_self.mpr (fun c hc => (lowClass_props (hall c hc)).2.2.1),
    map_id_of_fix _ (fun c hc => (lowClass_props (hall c hc)).2.2.2)]

/-- Claim C8: the column normalizer is idempotent — `normalize(normalize(x))
== normalize(x)` for every string, hence for every column-name list — and
every normalizer output is made of `[a-z0-9_]` characters only, so every
output is a fixed point of the normalizer. -/
theorem c8_normalizer_idempotent :
    (∀ s : String, to_snake_case (to_snake_case s) = to_snake_case s) ∧
    (∀ s : String, (to_snake_case s).data.all lowClass = true) ∧
    (∀ df : Frame, normalize_columns (normalize_columns df) = normalize_columns df) := by
  refine ⟨to_snake_case_idem, ?_, ?_⟩
  · intro s
    exact List.all_eq_true.mpr (lowClass_to_snake_case s)
  · intro df
    unfold normalize_columns
    simp only [List.map_map]
    exact congrArg (fun cs => Frame.mk cs df.rows)
      (List.map_congr_left (fun c _ => to_snake_case_idem c))

/- ================= Risk classifier (C2) ================= -/

/-- Claim C2, amended: with `low`/`medium` read from the thresholds
mapping (defaults 1000 and 10000), `classify` returns `alto` exactly
when `n` exceeds `medium`, `medio` exactly when `low < n <= medium`,
and `bajo` otherwise; negative inputs therefore classify as `bajo`
whenever the two cutoffs are non-negative (as the defaults and every
configured value are), though not for negative cutoffs. -/
theorem c2_classify_characterization (th : Thresholds) (n : Int) :
    (classify th n = "alto" ↔ th.medium.getD 10000 < n) ∧
    (classify th n = "medio" ↔ th.low.getD 1000 < n ∧ n ≤ th.medium.getD 10000) ∧
    (classify th n = "bajo" ↔ n ≤ th.medium.getD 10000 ∧ n ≤ th.low.getD 1000) ∧
    (0 ≤ th.low.getD 1000 → 0 ≤ th.medium.getD 10000 → n < 0 → classify th n = "bajo") := by
  unfold classify
  by_cases h1 : th.medium.getD 10000 < n
  · rw [if_pos h1]
    exact ⟨⟨fun _ => h1, fun _ => rfl⟩,
           ⟨fun h => absurd h (by decide), fun h => absurd h1 (by omega)⟩,
           ⟨fun h => absurd h (by decide), fun h => absurd h1 (by omega)⟩,
           fun _ hm hn => absurd h1 (by omega)⟩
  · rw [if_neg h1]
    by_cases h2 : th.low.getD 1000 < n
    · rw [if_pos h2]
      exact ⟨⟨fun h => absurd h (by decide), fun h => absurd h h1⟩,
             ⟨fun _ => ⟨h2, by omega⟩, fun _ => rfl⟩,
             ⟨fun h => absurd h (by decide), fun h => absurd h2 (by omega)⟩,
             fun hl _ hn => absurd h2 (by omega)⟩
    · rw [if_neg h2]
      exact ⟨⟨fun h => absurd h (by decide), fun h => absurd h h1⟩,
             ⟨fun h => absurd h (by decide), fun h => absurd h.1 h2⟩,
             ⟨fun _ => ⟨by omega, by omega⟩, fun _ => rfl⟩,
             fun _ _ _ => rfl⟩

/-- Witness for C2: the characterization applied at the spec's concrete
thresholds `{low: 100, medium: 500}` — including a negative input — and
the spec's five sample points. -/
theorem c2_classify_characterization_witness :
    classify ⟨some 100, some 500, some 1000⟩ (-3) = "bajo" ∧
    classify ⟨some 100, some 500, some 1000⟩ 50 = "bajo" ∧
    classify ⟨some 100, some 500, some 1000⟩ 100 = "bajo" ∧
    classify ⟨some 100, some 500, some 1000⟩ 101 = "medio" ∧
    classify ⟨some 100, some 500, some 1000⟩ 500 = "medio" ∧
    classify ⟨some 100, some 500, some 1000⟩ 501 = "alto" :=
  ⟨(c2_classify_characterization ⟨some 100, some 500, some 1000⟩ (-3)).2.2.2
      (by decide) (by decide) (by decide),
   (c2_classify_characterization ⟨some 100, some 500, some 1000⟩ 50).2.2.1.mpr
      ⟨by decide, by decide⟩,
   by decide, by decide, by decide, by decide⟩

/-- Counterexample for C2 as stated: the claim's parenthetical that
every negative input classifies as `bajo` fails for negative cutoffs —
with `{low: -10, medium: -5}` the negative input `-7` classifies as
`medio`. -/
theorem c2_counterexample :
    classify ⟨some (-10), some (-5), none⟩ (-7) = "medio" ∧
    (-7 : Int) < 0 ∧
    classify ⟨some (-10), some (-5), none⟩ (-7) ≠ "bajo" := by
  refine ⟨by decide, by decide, by decide⟩

/- ================= Growth guard (C7) ================= -/

/-- Claim C7: the growth rate of a row is the quotient of its new cases
by the previous confirmed count when the latter is positive, and exactly
`0.0` otherwise — in particular whenever the denominator is zero,
regardless of the sign of the numerator. -/
theorem c7_growth_guard (n p : Int) :
    (0 < p → safe_growth n p = (n : Rat) / (p : Rat)) ∧
    (¬ 0 < p → safe_growth n p = 0) ∧
    (p = 0 → safe_growth n p = 0) := by
  refine ⟨?_, ?_, ?_⟩
  · intro h
    unfold safe_growth
    rw [if_pos h, Rat.mkRat_eq_div]
    congr 1
    rw [← Int.cast_natCast]
    congr 1
    omega
  · intro h
    unfold safe_growth
    rw [if_neg h]
  · intro h
    subst h
    rfl

/-- Witness for C7: a positive denominator divides, a zero denominator
yields exactly 0 even for a negative numerator. -/
theorem c7_growth_guard_witness :
    safe_growth 15 10 = (15 : Rat) / 10 ∧
    safe_growth (-7) 0 = 0 ∧
    safe_growth 3 (-2) = 0 :=
  ⟨(c7_growth_guard 15 10).1 (by decide),
   (c7_growth_guard (-7) 0).2.2 rfl,
   (c7_growth_guard 3 (-2)).2.1 (by decide)⟩

/- ================= Metric calculator lemmas (C4, C9) ================= -/

theorem zipWith_sub_getD (a : Int) : ∀ (l : List Int) (j : Nat), j < l.length →
    (List.zipWith (fun x y => x - y) l (a :: l)).getD j 0 = l.getD j 0 - (a :: l).getD j 0
  | [], j, h => absurd h (by simp)
  | _ :: _, 0, _ => rfl
  | b :: t, j+1, h => by
    simp only [List.zipWith_cons_cons, List.getD_cons_succ]
    exact zipWith_sub_getD b t j (by simpa using h)

theorem dropLast_getD (l : List Int) (j : Nat) (d : Int) (h : j + 1 < l.length) :
    l.dropLast.getD j d = l.getD j d := by
  rw [List.getD_eq_getElem l d (by omega), List.getD_eq_getElem _ d (by simp; omega)]
  exact List.getElem_dropLast l j (by simp; omega)

/-- Claim C4: for every coerced confirmed series, `new_cases` is the
first value followed by successive differences, and `prev_confirmed`
is the series shifted down one position with a leading zero. -/
theorem c4_diff_shift (c : List Int) (i : Nat) (h : i < c.length) :
    ((newCasesOf c).getD i 0 =
      if i = 0 then c.getD 0 0 else c.getD i 0 - c.getD (i - 1) 0) ∧
    ((prevConfirmedOf c).getD i 0 = if i = 0 then 0 else c.getD (i - 1) 0) := by
  match c, i with
  | [], i => simp at h
  | a :: t, 0 => exact ⟨rfl, rfl⟩
  | a :: t, i+1 =>
    refine ⟨?_, ?_⟩
    · rw [if_neg (Nat.succ_ne_zero i)]
      show (List.zipWith (fun x y => x - y) t (a :: t)).getD i 0 = _
      rw [zipWith_sub_getD a t i (by simpa using h)]
      simp [List.getD_cons_succ]
    · rw [if_neg (Nat.succ_ne_zero i)]
      show (0 :: (a :: t).dropLast).getD (i+1) 0 = _
      rw [List.getD_cons_succ, dropLast_getD (a :: t) i 0 (by simpa using h)]
      simp

/-- Witness for C4 at the spec's concrete series `[10, 25]`. -/
theorem c4_diff_shift_witness :
    (newCasesOf [10, 25]).getD 1 0 = 25 - 10 ∧
    (prevConfirmedOf [10, 25]).getD 1 0 = 10 ∧
    (newCasesOf [10, 25]).getD 0 0 = 10 ∧
    (prevConfirmedOf [10, 25]).getD 0 0 = 0 := by
  have h1 := c4_diff_shift [10, 25] 1 (by decide)
  have h0 := c4_diff_shift [10, 25] 0 (by decide)
  exact ⟨by simpa using h1.1, by simpa using h1.2, by simpa using h0.1, by simpa using h0.2⟩

theorem newCases_sum_tel : ∀ (l : List Int) (a : Int),
    a + (List.zipWith (fun x y => x - y) l (a :: l)).sum =
      (a :: l).getLast (List.cons_ne_nil a l)
  | [], a => by simp
  | b :: t, a => by
    simp only [List.zipWith_cons_cons, List.sum_cons]
    rw [List.getLast_cons (List.cons_ne_nil b t)]
    have ih := newCases_sum_tel t b
    omega

theorem foldl_max_sorted : ∀ (t : List Int) (a : Int),
    List.Sorted (fun x y => x ≤ y) (a :: t) →
    t.foldl max a = (a :: t).getLast (List.cons_ne_nil a t)
  | [], _, _ => rfl
  | b :: t, a, hs => by
    simp only [List.foldl_cons]
    have hab : a ≤ b := (List.sorted_cons.mp hs).1 b (by simp)
    rw [max_eq_right hab, List.getLast_cons (List.cons_ne_nil b t)]
    exact foldl_max_sorted t b (List.sorted_cons.mp hs).2

/-- Claim C9: the summary's new-case total telescopes to the last value
of the (filtered, sorted, coerced) confirmed series, and therefore
coincides with the confirmed maximum — the summary's other total —
whenever that series is non-decreasing. -/
theorem c9_totals_telescoped (c : List Int) (h : c ≠ []) :
    (newCasesOf c).sum = c.getLast h ∧
    (List.Sorted (fun x y => x ≤ y) c → (newCasesOf c).sum = maxOf c) := by
  match c with
  | a :: t =>
    have hsum : (newCasesOf (a :: t)).sum = (a :: t).getLast (List.cons_ne_nil a t) := by
      show (a :: List.zipWith (fun x y => x - y) t (a :: t)).sum = _
      rw [List.sum_cons]
      exact newCases_sum_tel t a
    refine ⟨hsum, fun hs => ?_⟩
    rw [hsum]
    exact (foldl_max_sorted t a hs).symm

/-- Witness for C9 on the sorted series `[10, 25]`: both totals are 25. -/
theorem c9_totals_telescoped_witness :
    (newCasesOf [10, 25]).sum = ([10, 25] : List Int).getLast (List.cons_ne_nil 10 [25]) ∧
    (newCasesOf [10, 25]).sum = maxOf [10, 25] := by
  have h := c9_totals_telescoped [10, 25] (List.cons_ne_nil 10 [25])
  exact ⟨h.1, h.2 (by simp)⟩

/- ================= mapME and cell-update lemmas ================= -/

theorem getD_set_self (r : List Val) (i : Nat) (v d : Val) (h : i < r.length) :
    (r.set i v).getD i d = v := by
  rw [List.getD_eq_getElem _ d (by simpa using h)]
  exact List.getElem_set_self _

theorem getD_set_ne (r : List Val) (i j : Nat) (v d : Val) (h : i ≠ j) :
    (r.set i v).getD j d = r.getD j d := by
  simp [List.getD, List.getElem?_set_ne h]

theorem mapME_ok_mem {f : α → Except Err β} : ∀ {l : List α} {out : List β},
    mapME f l = .ok out → ∀ b ∈ out, ∃ a ∈ l, f a = .ok b := by
  intro l
  induction l with
  | nil =>
    intro out h b hb
    simp only [mapME] at h
    cases h
    simp at hb
  | cons a t ih =>
    intro out h b hb
    simp only [mapME] at h
    cases hfa : f a with
    | error e => rw [hfa] at h; cases h
    | ok b0 =>
      rw [hfa] at h
      cases hmt : mapME f t with
      | error e => rw [hmt] at h; cases h
      | ok bs =>
        rw [hmt] at h
        cases h
        rcases List.mem_cons.mp hb with rfl | hb2
        · exact ⟨a, by simp, hfa⟩
        · obtain ⟨a2, ha2, hfa2⟩ := ih hmt b hb2
          exact ⟨a2, List.mem_cons_of_mem _ ha2, hfa2⟩

theorem mapME_error {f : α → Except Err β} : ∀ {l : List α} {e : Err},
    mapME f l = .error e → ∃ a ∈ l, f a = .error e := by
  intro l
  induction l with
  | nil => intro e h; simp only [mapME] at h; cases h
  | cons a t ih =>
    intro e h
    simp only [mapME] at h
    cases hfa : f a with
    | error e2 =>
      rw [hfa] at h
      cases h
      exact ⟨a, by simp, hfa⟩
    | ok b0 =>
      rw [hfa] at h
      cases hmt : mapME f t with
      | error e2 =>
        rw [hmt] at h
        cases h
        obtain ⟨a2, ha2, hfa2⟩ := ih hmt
        exact ⟨a2, List.mem_cons_of_mem _ ha2, hfa2⟩
      | ok bs => rw [hmt] at h; cases h

theorem mapME_ok_of_all {f : α → Except Err β} : ∀ {l : List α},
    (∀ a ∈ l, ∃ b, f a = .ok b) → ∃ out, mapME f l = .ok out := by
  intro l
  induction l with
  | nil => intro _; exact ⟨[], rfl⟩
  | cons a t ih =>
    intro h
    obtain ⟨b, hb⟩ := h a (by simp)
    obtain ⟨out, hout⟩ := ih (fun x hx => h x (List.mem_cons_of_mem _ hx))
    refine ⟨b :: out, ?_⟩
    simp only [mapME, hb, hout]

/- ================= Confirmed coercion (C3) ================= -/

/-- Claim C3, amended: the coercion step turns every confirmed cell
into an integer, with missing values becoming 0; the outputs are
non-negative whenever every present value is a non-negative integer.
The coercion does not clamp, so a negative input survives as is. -/
theorem c3_coerce_nonneg (df : Frame) (i : Nat) (df2 : Frame)
    (hrect : ∀ r ∈ df.rows, i < r.length)
    (hok : ∀ r ∈ df.rows, r.getD i .na = .na ∨ ∃ n, r.getD i .na = .int n ∧ 0 ≤ n)
    (hco : coerceColAt i df = .ok df2) :
    ∀ r2 ∈ df2.rows, ∃ m, r2.getD i .na = .int m ∧ 0 ≤ m := by
  intro r2 hr2
  unfold coerceColAt at hco
  cases hm : mapME (fun r =>
      match astypeIntVal (r.getD i .na) with
      | .error e => .error e
      | .ok n => .ok (r.set i (.int n))) df.rows with
  | error e => rw [hm] at hco; cases hco
  | ok rows =>
    rw [hm] at hco
    cases hco
    obtain ⟨a, ha, hfa⟩ := mapME_ok_mem hm r2 hr2
    rcases hok a ha with hna | ⟨n, hn, hnn⟩
    · rw [hna] at hfa
      simp only [astypeIntVal] at hfa
      cases hfa
      exact ⟨0, getD_set_self a i (.int 0) .na (hrect a ha), le_refl 0⟩
    · rw [hn] at hfa
      simp only [astypeIntVal] at hfa
      cases hfa
      exact ⟨n, getD_set_self a i (.int n) .na (hrect a ha), hnn⟩

/-- Witness for C3: a column holding a missing value and a non-negative
integer coerces to non-negative integers; the first output row holds
the integer 0. -/
theorem c3_coerce_nonneg_witness :
    ∃ m, ([Val.int 0] : List Val).getD 0 .na = .int m ∧ 0 ≤ m :=
  c3_coerce_nonneg ⟨["confirmed"], [[.na], [.int 3]]⟩ 0
    ⟨["confirmed"], [[.int 0], [.int 3]]⟩
    (by intro r hr; fin_cases hr <;> simp)
    (by
      intro r hr
      fin_cases hr
      · exact Or.inl rfl
      · exact Or.inr ⟨3, rfl, by decide⟩)
    rfl [Val.int 0] (by simp)

/-- Counterexample for C3 as stated: a negative confirmed entry is not
made non-negative by the coercion — `-5` passes through unchanged. -/
theorem c3_counterexample :
    coerceColAt 0 ⟨["confirmed"], [[Val.int (-5)]]⟩ =
      .ok ⟨["confirmed"], [[Val.int (-5)]]⟩ ∧ ¬ (0 : Int) ≤ -5 :=
  ⟨rfl, by decide⟩

/- ================= Time-window filter (C6) ================= -/

theorem inWindow_iff (today : Int) (i : Nat) (r : List Val) :
    inWindow today i r = true ↔
      ∃ d, r.getD i .na = Val.date d ∧ today - 30 ≤ d ∧ d ≤ today := by
  unfold inWindow
  cases h : r.getD i .na <;> simp [h]

/-- Claim C6: with the selected date column in unique position `i`, the
window stage keeps exactly the rows whose timestamp lies in the
inclusive 30-day interval before the reference instant — as a multiset,
hence independently of the input ordering — and after the sort stage
the surviving rows are ascending in that column. -/
theorem c6_window_filter (today : Int) (df : Frame) (i : Nat)
    (hidx : idxsOf (pickDateCol df.cols) df.cols = [i]) :
    (sortByCol (pickDateCol df.cols) (filterWindow today (pickDateCol df.cols) df)).rows.Perm
        (df.rows.filter (inWindow today i)) ∧
    (∀ r, r ∈ (sortByCol (pickDateCol df.cols) (filterWindow today (pickDateCol df.cols) df)).rows ↔
        (r ∈ df.rows ∧ ∃ d, r.getD i .na = Val.date d ∧ today - 30 ≤ d ∧ d ≤ today)) ∧
    List.Sorted (fun x y => x ≤ y)
      ((sortByCol (pickDateCol df.cols) (filterWindow today (pickDateCol df.cols) df)).rows.map
        (dateKey i)) := by
  have hfw : filterWindow today (pickDateCol df.cols) df =
      { df with rows := df.rows.filter (inWindow today i) } := by
    unfold filterWindow
    rw [hidx]
  have hsort : (sortByCol (pickDateCol df.cols) (filterWindow today (pickDateCol df.cols) df)).rows =
      (df.rows.filter (inWindow today i)).insertionSort
        (fun a b => dateKey i a ≤ dateKey i b) := by
    rw [hfw]
    unfold sortByCol
    rw [hidx]
  have hperm : (sortByCol (pickDateCol df.cols) (filterWindow today (pickDateCol df.cols) df)).rows.Perm
      (df.rows.filter (inWindow today i)) := by
    rw [hsort]
    exact List.perm_insertionSort _ _
  refine ⟨hperm, ?_, ?_⟩
  · intro r
    rw [hperm.mem_iff, List.mem_filter, inWindow_iff]
  · rw [hsort]
    haveI htot : IsTotal (List Val) (fun a b => dateKey i a ≤ dateKey i b) :=
      ⟨fun a b => Int.le_total _ _⟩
    haveI htr : IsTrans (List Val) (fun a b => dateKey i a ≤ dateKey i b) :=
      ⟨fun _ _ _ h1 h2 => le_trans h1 h2⟩
    have hs := List.sorted_insertionSort (fun a b => dateKey i a ≤ dateKey i b)
      (df.rows.filter (inWindow today i))
    exact List.Pairwise.map (dateKey i) (fun _ _ h => h) hs

/-- Witness for C6 on a three-row frame with reference instant 100: the
row dated 200 is outside the window and dropped; the survivors come out
date-ascending. -/
theorem c6_window_filter_witness :
    ((sortByCol (pickDateCol (Frame.mk ["date"] [[Val.date 100], [Val.date 50], [Val.date 200]]).cols)
        (filterWindow 100 (pickDateCol (Frame.mk ["date"] [[Val.date 100], [Val.date 50], [Val.date 200]]).cols)
          (Frame.mk ["date"] [[Val.date 100], [Val.date 50], [Val.date 200]]))).rows.Perm
      ((Frame.mk ["date"] [[Val.date 100], [Val.date 50], [Val.date 200]]).rows.filter (inWindow 100 0))) ∧
    ([Val.date 200] ∈ (sortByCol (pickDateCol (Frame.mk ["date"] [[Val.date 100], [Val.date 50], [Val.date 200]]).cols)
        (filterWindow 100 (pickDateCol (Frame.mk ["date"] [[Val.date 100], [Val.date 50], [Val.date 200]]).cols)
          (Frame.mk ["date"] [[Val.date 100], [Val.date 50], [Val.date 200]]))).rows ↔
      ([Val.date 200] ∈ (Frame.mk ["date"] [[Val.date 100], [Val.date 50], [Val.date 200]]).rows ∧
        ∃ d, ([Val.date 200] : List Val).getD 0 .na = Val.date d ∧ (100 : Int) - 30 ≤ d ∧ d ≤ 100)) ∧
    List.Sorted (fun x y => x ≤ y)
      ((sortByCol (pickDateCol (Frame.mk ["date"] [[Val.date 100], [Val.date 50], [Val.date 200]]).cols)
        (filterWindow 100 (pickDateCol (Frame.mk ["date"] [[Val.date 100], [Val.date 50], [Val.date 200]]).cols)
          (Frame.mk ["date"] [[Val.date 100], [Val.date 50], [Val.date 200]]))).rows.map (dateKey 0)) := by
  have h := c6_window_filter 100 (Frame.mk ["date"] [[Val.date 100], [Val.date 50], [Val.date 200]]) 0 rfl
  exact ⟨h.1, h.2.1 [Val.date 200], h.2.2⟩

/- ================= Object store (aliasing model, C10) ================= -/

/-- Last stage of the store model: the five in-place column assignments
(`new_cases`, `prev_confirmed`, `growth_rate`, `risk`, `country`) on
the sorted frame object at `r4`, then the totals. -/
def storeMetrics (σ : List Frame) (r4 : Nat) (dfG : Frame) (country : String)
    (th : Thresholds) : List Frame × Except Err (Nat × Totals) :=
  match getSingleIntCol "confirmed" dfG with
  | .error e => (σ, .error e)
  | .ok c =>
    let nc := newCasesOf c
    let dfH := setCol "new_cases" (nc.map Val.int) dfG
    let σ1 := σ.set r4 dfH
    let prev := prevConfirmedOf c
    let dfI := setCol "prev_confirmed" (prev.map Val.int) dfH
    let σ2 := σ1.set r4 dfI
    let gr := dfI.rows.map (fun row =>
      safe_growth (cellInt (row.getD (colIdx "new_cases" dfI) .na))
        (cellInt (row.getD (colIdx "prev_confirmed" dfI) .na)))
    let dfJ := setCol "growth_rate" (gr.map Val.rat) dfI
    let σ3 := σ2.set r4 dfJ
    let risdef := dfJ.rows.map (fun row =>
      Val.str (classify th (cellInt (row.getD (colIdx "new_cases" dfJ) .na))))
    let dfK := setCol "risk" risdef dfJ
    let σ4 := σ3.set r4 dfK
    let dfL := setCol "country" (dfK.rows.map (fun _ => Val.str country)) dfK
    let σ5 := σ4.set r4 dfL
    let totals : Totals := { country := country
                             total_confirmed := if dfL.isEmptyF then 0 else maxOf c
                             total_new_cases := if dfL.isEmptyF then 0 else (newCasesOf c).sum }
    (σ5, .ok (r4, totals))

/-- Confirmed-column stage of the store model: synthesize the zero
column in place if needed, coerce in place, then `sort_values` builds a
fresh object. -/
def storeConfirm (σ : List Frame) (r3 : Nat) (dateCol : String) (dfD : Frame)
    (country : String) (th : Thresholds) : List Frame × Except Err (Nat × Totals) :=
  let step6 : List Frame × Frame :=
    if "confirmed" ∉ dfD.cols then
      let dfE := setCol "confirmed" (dfD.rows.map (fun _ => Val.int 0)) dfD
      (σ.set r3 dfE, dfE)
    else (σ, dfD)
  let σ1 := step6.1
  let dfE := step6.2
  match coerceConfirmed dfE with
  | .error e => (σ1, .error e)
  | .ok dfF =>
    let σ2 := σ1.set r3 dfF
    match sortValues dateCol dfF with
    | .error e => (σ2, .error e)
    | .ok dfG =>
      let σ3 := σ2 ++ [dfG]
      let r4 := σ2.length
      storeMetrics σ3 r4 dfG country th

/-- Version of `process_country_df` with the Python object graph made explicit: a
store of DataFrame objects indexed by position, the caller's frame at
reference `r`.  Every in-place column assignment (`df[...] = ...`)
writes to the object it targets; `normalize_columns` begins by copying
the caller's frame (`df.copy()`), and the mask selection, `rename` and
`sort_values` each build further fresh objects, so every write lands on
an object allocated during the call. -/
def storeProcess (today : Int) (store : List Frame) (r : Nat) (country : String)
    (th : Thresholds) : List Frame × Except Err (Nat × Totals) :=
  match store[r]? with
  | none => (store, .error .other)
  | some df0 =>
    if df0.isEmptyF then
      (store, .ok (r, { country := country, total_confirmed := 0, total_new_cases := 0 }))
    else
      let df1 := normalize_columns df0
      let s1 := store ++ [df1]
      let r1 := store.length
      let dateCol := pickDateCol df1.cols
      match toDatetimeCol dateCol df1 with
      | .error e => (s1, .error e)
      | .ok dfA =>
        let s2 := s1.set r1 dfA
        let dfB := filterWindow today dateCol dfA
        let s3 := s2 ++ [dfB]
        let r2 := s2.length
        match toDatetimeCol dateCol dfB with
        | .error e => (s3, .error e)
        | .ok dfC =>
          let s4 := s3.set r2 dfC
          let step5 : List Frame × Nat × Frame :=
            if "confirmed" ∉ dfC.cols ∧ "cases" ∈ dfC.cols then
              (s4 ++ [renameCasesToConfirmed dfC], s4.length, renameCasesToConfirmed dfC)
            else (s4, r2, dfC)
          storeConfirm step5.1 step5.2.1 dateCol step5.2.2 country th


/- ================= No mutation of the caller's frame (C10) ================= -/

theorem pres_app2 (σ : List Frame) (x : Frame) (r : Nat) (h : r < σ.length) :
    (σ ++ [x])[r]? = σ[r]? := by
  rw [List.getElem?_append]
  simp [h]

theorem pres_set2 (σ : List Frame) (x : Frame) (k r : Nat) (h : r < k) :
    (σ.set k x)[r]? = σ[r]? :=
  List.getElem?_set_ne (by omega)

theorem storeMetrics_pres (σ : List Frame) (r4 : Nat) (dfG : Frame) (country : String)
    (th : Thresholds) (j : Nat) (hj : j < r4) :
    (storeMetrics σ r4 dfG country th).1[j]? = σ[j]? := by
  unfold storeMetrics
  split
  · rfl
  · rw [pres_set2 _ _ _ _ hj, pres_set2 _ _ _ _ hj, pres_set2 _ _ _ _ hj,
      pres_set2 _ _ _ _ hj, pres_set2 _ _ _ _ hj]

theorem storeConfirm_pres (σ : List Frame) (r3 : Nat) (dateCol : String) (dfD : Frame)
    (country : String) (th : Thresholds) (j : Nat) (hj3 : j < r3) (hjσ : j < σ.length) :
    (storeConfirm σ r3 dateCol dfD country th).1[j]? = σ[j]? := by
  unfold storeConfirm
  by_cases hconf : "confirmed" ∉ dfD.cols
  · rw [if_pos hconf]
    dsimp only
    split
    · exact pres_set2 _ _ _ _ hj3
    · split
      · dsimp only
        rw [pres_set2 _ _ _ _ hj3, pres_set2 _ _ _ _ hj3]
      · rw [storeMetrics_pres _ _ _ _ _ _ (by simp [List.length_set]; omega),
          pres_app2 _ _ _ (by simp [List.length_set]; omega),
          pres_set2 _ _ _ _ hj3, pres_set2 _ _ _ _ hj3]
  · rw [if_neg hconf]
    dsimp only
    split
    · rfl
    · split
      · dsimp only
        rw [pres_set2 _ _ _ _ hj3]
      · rw [storeMetrics_pres _ _ _ _ _ _ (by simp [List.length_set]; omega),
          pres_app2 _ _ _ (by simp [List.length_set]; omega),
          pres_set2 _ _ _ _ hj3]

/-- Claim C10: `process` never mutates the caller's input frame — in
the store model, after the call returns or raises, the object at the
caller's reference is unchanged, because `normalize_columns` operates
on a copy and every later in-place write targets an object allocated
during the call. -/
theorem c10_no_mutation (today : Int) (store : List Frame) (r : Nat) (country : String)
    (th : Thresholds) :
    (storeProcess today store r country th).1[r]? = store[r]? := by
  unfold storeProcess
  split
  · rfl
  next df0 hdf =>
    have hr : r < store.length := by
      rcases List.getElem?_eq_some.mp hdf with ⟨h, _⟩
      exact h
    split
    · rfl
    · dsimp only
      split
      · exact pres_app2 _ _ _ hr
      · split
        · rw [pres_app2 _ _ _ (by simp [List.length_set, List.length_append]; omega),
            pres_set2 _ _ _ _ hr, pres_app2 _ _ _ hr]
        · next dfC heq =>
            by_cases hren : "confirmed" ∉ dfC.cols ∧ "cases" ∈ dfC.cols
            · rw [if_pos hren]
              dsimp only
              rw [storeConfirm_pres _ _ _ _ _ _ _
                    (by simp [List.length_set, List.length_append]; omega)
                    (by simp [List.length_set, List.length_append]; omega),
                pres_app2 _ _ _ (by simp [List.length_set, List.length_append]; omega),
                pres_set2 _ _ _ _ (by simp [List.length_set, List.length_append]; omega),
                pres_app2 _ _ _ (by simp [List.length_set, List.length_append]; omega),
                pres_set2 _ _ _ _ hr, pres_app2 _ _ _ hr]
            · rw [if_neg hren]
              dsimp only
              rw [storeConfirm_pres _ _ _ _ _ _ _
                    (by simp [List.length_set, List.length_append]; omega)
                    (by simp [List.length_set, List.length_append]; omega),
                pres_set2 _ _ _ _ (by simp [List.length_set, List.length_append]; omega),
                pres_app2 _ _ _ (by simp [List.length_set, List.length_append]; omega),
                pres_set2 _ _ _ _ hr, pres_app2 _ _ _ hr]

/- ================= End-to-end concrete run (C1) ================= -/

/-- Claim C1, amended: on the spec's concrete input — rows
`{date: 2024-01-01, confirmed: 10}` and `{date: 2024-01-02, confirmed: 25}`,
thresholds `{low: 5, medium: 20}`, reference instant 2024-01-10 (epoch
day 19732), whose 30-day window covers both dates — `process` returns
`new_cases = [10, 15]`, `prev_confirmed = [0, 10]`,
`growth_rate = [0.0, 1.5]`, totals `{total_confirmed: 25,
total_new_cases: 25}`, and risk `["medio", "medio"]`: with
`medium = 20`, neither 10 nor 15 new cases exceeds the `alto` cutoff. -/
theorem c1_end_to_end :
    process_country_df 19732
        ⟨["date", "confirmed"],
         [[.str "2024-01-01", .int 10], [.str "2024-01-02", .int 25]]⟩
        "MX" ⟨some 5, some 20, none⟩ =
      .ok (⟨["date", "confirmed", "new_cases", "prev_confirmed", "growth_rate", "risk", "country"],
            [[.date 19723, .int 10, .int 10, .int 0, .rat 0, .str "medio", .str "MX"],
             [.date 19724, .int 25, .int 15, .int 10, .rat (mkRat 3 2), .str "medio", .str "MX"]]⟩,
           ⟨"MX", 25, 25⟩) := rfl

/-- Counterexample for C1 as stated: on that input the risk column is
`["medio", "medio"]`, not the claimed `["medio", "alto"]` — `classify`
reads `new_cases` (15 on the second row, below `medium = 20`), not the
cumulative `confirmed`. -/
theorem c1_counterexample :
    process_country_df 19732
        ⟨["date", "confirmed"],
         [[.str "2024-01-01", .int 10], [.str "2024-01-02", .int 25]]⟩
        "MX" ⟨some 5, some 20, none⟩ =
      .ok (⟨["date", "confirmed", "new_cases", "prev_confirmed", "growth_rate", "risk", "country"],
            [[.date 19723, .int 10, .int 10, .int 0, .rat 0, .str "medio", .str "MX"],
             [.date 19724, .int 25, .int 15, .int 10, .rat (mkRat 3 2), .str "medio", .str "MX"]]⟩,
           ⟨"MX", 25, 25⟩) ∧
    (⟨["date", "confirmed", "new_cases", "prev_confirmed", "growth_rate", "risk", "country"],
      [[.date 19723, .int 10, .int 10, .int 0, .rat 0, .str "medio", .str "MX"],
       [.date 19724, .int 25, .int 15, .int 10, .rat (mkRat 3 2), .str "medio", .str "MX"]]⟩ : Frame) ≠
    ⟨["date", "confirmed", "new_cases", "prev_confirmed", "growth_rate", "risk", "country"],
      [[.date 19723, .int 10, .int 10, .int 0, .rat 0, .str "medio", .str "MX"],
       [.date 19724, .int 25, .int 15, .int 10, .rat (mkRat 3 2), .str "alto", .str "MX"]]⟩ :=
  ⟨rfl, by decide⟩

/- ================= Error discipline (C5): predicates ================= -/

/-- Cells that `fillna(0).astype(int)` accepts without raising: anything
but a string that is not an integer literal. -/
def okConfirmedCell (v : Val) : Bool :=
  match v with
  | .str s => s.toInt?.isSome
  | _ => true

/-- Hypothesis of the error-discipline theorem on the raw frame: every
cell sitting in a column whose normalized name is `confirmed` or
`cases` is numeric or missing. -/
def ConfirmedOk (df : Frame) : Prop :=
  ∀ r ∈ df.rows, ∀ i, i < df.cols.length →
    (to_snake_case (df.cols.getD i "") = "confirmed" ∨
      to_snake_case (df.cols.getD i "") = "cases") →
    okConfirmedCell (r.getD i .na) = true

/-- The same condition, phrased on an already-normalized frame. -/
def CellsOkAt (df : Frame) : Prop :=
  ∀ r ∈ df.rows, ∀ i, i < df.cols.length →
    (df.cols.getD i "" = "confirmed" ∨ df.cols.getD i "" = "cases") →
    okConfirmedCell (r.getD i .na) = true

/-- Rectangularity: every row has one cell per column. -/
def RowsRect (df : Frame) : Prop := ∀ r ∈ df.rows, r.length = df.cols.length

/- ================= Error discipline (C5): index lemmas ================= -/

theorem mem_idxsOf {i : Nat} {name : String} {cols : List String} :
    i ∈ idxsOf name cols ↔ i < cols.length ∧ cols.getD i "" = name := by
  unfold idxsOf
  simp [List.mem_filter, List.mem_range]

theorem nodup_getD_inj {cols : List String} (hnd : cols.Nodup) {i j : Nat}
    (hi : i < cols.length) (hj : j < cols.length)
    (h : cols.getD i "" = cols.getD j "") : i = j := by
  rw [List.getD_eq_getElem _ _ hi, List.getD_eq_getElem _ _ hj] at h
  exact hnd.getElem_inj_iff.mp h

theorem idxsOf_singleton {name : String} {cols : List String} (hnd : cols.Nodup)
    (hm : name ∈ cols) : ∃ i, idxsOf name cols = [i] := by
  have hnodupIdx : (idxsOf name cols).Nodup :=
    List.Nodup.filter _ (List.nodup_range _)
  obtain ⟨n, hn, hcn⟩ := List.mem_iff_getElem.mp hm
  have hnmem : n ∈ idxsOf name cols :=
    mem_idxsOf.mpr ⟨hn, by rw [List.getD_eq_getElem _ _ hn]; exact hcn⟩
  match hidx : idxsOf name cols with
  | [] => rw [hidx] at hnmem; cases hnmem
  | [i] => exact ⟨i, rfl⟩
  | i :: j :: t =>
    exfalso
    rw [hidx] at hnodupIdx hnmem
    have hi : i ∈ idxsOf name cols := by rw [hidx]; simp
    have hj : j ∈ idxsOf name cols := by rw [hidx]; simp
    obtain ⟨hi1, hi2⟩ := mem_idxsOf.mp hi
    obtain ⟨hj1, hj2⟩ := mem_idxsOf.mp hj
    have heq2 : i = j := nodup_getD_inj hnd hi1 hj1 (hi2.trans hj2.symm)
    rw [List.nodup_cons] at hnodupIdx
    exact hnodupIdx.1 (heq2 ▸ List.mem_cons_self j t)

theorem idxsOf_nil_of_not_mem {name : String} {cols : List String} (h : name ∉ cols) :
    idxsOf name cols = [] := by
  unfold idxsOf
  rw [List.filter_eq_nil_iff]
  intro i hi
  simp only [decide_eq_true_eq]
  intro hg
  apply h
  rw [← hg]
  have hil : i < cols.length := List.mem_range.mp hi
  rw [List.getD_eq_getElem _ _ hil]
  exact List.getElem_mem hil

theorem pickDateCol_mem {cols : List String} (h : cols ≠ []) : pickDateCol cols ∈ cols := by
  unfold pickDateCol
  cases hf : cols.find? (fun c => strContains c "date") with
  | some c => exact List.mem_of_find?_eq_some hf
  | none =>
    match cols, h with
    | a :: t, _ => simp [List.headD]

theorem getD_map_str (f : String → String) (l : List String) (i : Nat) (h : i < l.length) :
    (l.map f).getD i "" = f (l.getD i "") := by
  rw [List.getD_eq_getElem _ _ (by simpa using h), List.getD_eq_getElem _ _ h]
  exact List.getElem_map f

/- ================= Error discipline (C5): conversion lemmas ================= -/

theorem toDatetimeVal_error {v : Val} {e : Err} (h : toDatetimeVal v = .error e) :
    e = .unparseableDate ∧ ∃ s, v = .str s ∧ parseDate s = none := by
  cases v with
  | na => simp [toDatetimeVal] at h
  | int n => simp [toDatetimeVal] at h
  | rat q => simp [toDatetimeVal] at h
  | date d => simp [toDatetimeVal] at h
  | str s =>
    cases hp : parseDate s with
    | some d => simp [toDatetimeVal, hp] at h
    | none =>
      simp only [toDatetimeVal, hp, Except.error.injEq] at h
      exact ⟨h.symm, s, rfl, hp⟩

theorem toDatetimeVal_ok {v w : Val} (h : toDatetimeVal v = .ok w) :
    w = .na ∨ ∃ d, w = .date d := by
  cases v with
  | na => simp only [toDatetimeVal, Except.ok.injEq] at h; exact Or.inl h.symm
  | int n => simp only [toDatetimeVal, Except.ok.injEq] at h; exact Or.inr ⟨n, h.symm⟩
  | rat q => simp only [toDatetimeVal, Except.ok.injEq] at h; exact Or.inr ⟨_, h.symm⟩
  | date d => simp only [toDatetimeVal, Except.ok.injEq] at h; exact Or.inr ⟨d, h.symm⟩
  | str s =>
    cases hp : parseDate s with
    | some d =>
      simp only [toDatetimeVal, hp, Except.ok.injEq] at h
      exact Or.inr ⟨d, h.symm⟩
    | none => simp [toDatetimeVal, hp] at h

theorem toDatetimeCol_error {name : String} {df : Frame} {e : Err} {i : Nat}
    (hidx : idxsOf name df.cols = [i])
    (h : toDatetimeCol name df = .error e) :
    e = .unparseableDate ∧ ∃ r ∈ df.rows, ∃ s, r.getD i .na = .str s ∧ parseDate s = none := by
  simp only [toDatetimeCol, hidx] at h
  split at h
  · next e2 heq =>
    cases h
    obtain ⟨a, ha, hfa⟩ := mapME_error heq
    cases hv : toDatetimeVal (a.getD i .na) with
    | error e3 =>
      rw [hv] at hfa
      cases hfa
      obtain ⟨he, s, hs, hps⟩ := toDatetimeVal_error hv
      exact ⟨he, a, ha, s, hs, hps⟩
    | ok v => rw [hv] at hfa; cases hfa
  · cases h

theorem toDatetimeCol_ok_rows {name : String} {df df2 : Frame} {i : Nat}
    (hidx : idxsOf name df.cols = [i])
    (h : toDatetimeCol name df = .ok df2) :
    df2.cols = df.cols ∧
      ∀ r2 ∈ df2.rows, ∃ r ∈ df.rows, ∃ v,
        toDatetimeVal (r.getD i .na) = .ok v ∧ r2 = r.set i v := by
  simp only [toDatetimeCol, hidx] at h
  split at h
  · cases h
  · next rows heq =>
    cases h
    refine ⟨rfl, ?_⟩
    intro r2 hr2
    obtain ⟨a, ha, hfa⟩ := mapME_ok_mem heq r2 hr2
    cases hv : toDatetimeVal (a.getD i .na) with
    | error e3 => rw [hv] at hfa; cases hfa
    | ok v =>
      rw [hv] at hfa
      cases hfa
      exact ⟨a, ha, v, hv, rfl⟩

theorem toDatetimeCol_ok_of_all {name : String} {df : Frame} {i : Nat}
    (hidx : idxsOf name df.cols = [i])
    (hall : ∀ r ∈ df.rows, ∃ v, toDatetimeVal (r.getD i .na) = .ok v) :
    ∃ df2, toDatetimeCol name df = .ok df2 := by
  have hmap : ∀ r ∈ df.rows, ∃ b, (fun r2 : List Val =>
      match toDatetimeVal (r2.getD i .na) with
      | .error e => (.error e : Except Err (List Val))
      | .ok v => .ok (r2.set i v)) r = .ok b := by
    intro r hr
    obtain ⟨v, hv⟩ := hall r hr
    exact ⟨r.set i v, by simp only [hv]⟩
  obtain ⟨out, hout⟩ := mapME_ok_of_all hmap
  refine ⟨{ df with rows := out }, ?_⟩
  simp only [toDatetimeCol, hidx, hout]

/- ================= Error discipline (C5): invariant transport ================= -/

theorem cellsOkAt_normalize {df : Frame} (h : ConfirmedOk df) :
    CellsOkAt (normalize_columns df) := by
  intro r hr i hi hname
  have hi2 : i < df.cols.length := by simpa [normalize_columns] using hi
  apply h r hr i hi2
  rw [show (normalize_columns df).cols = df.cols.map to_snake_case from rfl] at hname
  rw [getD_map_str to_snake_case df.cols i hi2] at hname
  exact hname

theorem rowsRect_normalize {df : Frame} (h : RowsRect df) :
    RowsRect (normalize_columns df) := by
  intro r hr
  simpa [normalize_columns] using h r hr

theorem invariants_toDatetimeCol {name : String} {df df2 : Frame} {i : Nat}
    (hidx : idxsOf name df.cols = [i])
    (h : toDatetimeCol name df = .ok df2)
    (hok : CellsOkAt df) (hrect : RowsRect df) :
    CellsOkAt df2 ∧ RowsRect df2 ∧ df2.cols = df.cols := by
  obtain ⟨hcols, hrows⟩ := toDatetimeCol_ok_rows hidx h
  refine ⟨?_, ?_, hcols⟩
  · intro r2 hr2 j hj hname
    obtain ⟨r, hr, v, hv, rfl⟩ := hrows r2 hr2
    rw [hcols] at hname hj
    by_cases hij : i = j
    · subst hij
      have hlen : i < r.length := by
        rw [hrect r hr]
        obtain ⟨hi1, _⟩ := mem_idxsOf.mp (hidx ▸ List.mem_cons_self i [])
        exact hi1
      rw [getD_set_self r i v _ hlen]
      rcases toDatetimeVal_ok hv with rfl | ⟨d, rfl⟩ <;> rfl
    · rw [getD_set_ne r i j v _ hij]
      exact hok r hr j hj hname
  · intro r2 hr2
    obtain ⟨r, hr, v, _, rfl⟩ := hrows r2 hr2
    rw [hcols, List.length_set]
    exact hrect r hr

theorem dateCells_toDatetimeCol {name : String} {df df2 : Frame} {i : Nat}
    (hidx : idxsOf name df.cols = [i])
    (h : toDatetimeCol name df = .ok df2) (hrect : RowsRect df) :
    ∀ r2 ∈ df2.rows, r2.getD i .na = .na ∨ ∃ d, r2.getD i .na = .date d := by
  obtain ⟨_, hrows⟩ := toDatetimeCol_ok_rows hidx h
  intro r2 hr2
  obtain ⟨r, hr, v, hv, rfl⟩ := hrows r2 hr2
  have hlen : i < r.length := by
    rw [hrect r hr]
    obtain ⟨hi1, _⟩ := mem_idxsOf.mp (hidx ▸ List.mem_cons_self i [])
    exact hi1
  rw [getD_set_self r i v _ hlen]
  exact toDatetimeVal_ok hv

theorem filterWindow_eq {today : Int} {name : String} {df : Frame} {i : Nat} {rest : List Nat}
    (hidx : idxsOf name df.cols = i :: rest) :
    filterWindow today name df = { df with rows := df.rows.filter (inWindow today i) } := by
  unfold filterWindow
  rw [hidx]

theorem cellsOkAt_of_sub {df df2 : Frame} (hc : df2.cols = df.cols)
    (hsub : ∀ r ∈ df2.rows, r ∈ df.rows) (h : CellsOkAt df) : CellsOkAt df2 := by
  intro r hr i hi hname
  rw [hc] at hi hname
  exact h r (hsub r hr) i hi hname

theorem rowsRect_of_sub {df df2 : Frame} (hc : df2.cols = df.cols)
    (hsub : ∀ r ∈ df2.rows, r ∈ df.rows) (h : RowsRect df) : RowsRect df2 := by
  intro r hr
  rw [hc]
  exact h r (hsub r hr)

/- ================= Error discipline (C5): rename, synthesis, coercion ================= -/

theorem nodup_rename {cols : List String} (hnd : cols.Nodup) (hnc : "confirmed" ∉ cols) :
    (cols.map (fun c => if c = "cases" then "confirmed" else c)).Nodup := by
  apply List.Nodup.map_on ?_ hnd
  intro x hx y hy hxy
  by_cases hxc : x = "cases" <;> by_cases hyc : y = "cases"
  · rw [hxc, hyc]
  · rw [if_pos hxc, if_neg hyc] at hxy
    exact absurd (hxy ▸ hy) hnc
  · rw [if_neg hxc, if_pos hyc] at hxy
    exact absurd (hxy ▸ hx) hnc
  · rwa [if_neg hxc, if_neg hyc] at hxy

theorem confirmed_mem_rename {cols : List String} (hc : "cases" ∈ cols) :
    "confirmed" ∈ cols.map (fun c => if c = "cases" then "confirmed" else c) :=
  List.mem_map.mpr ⟨"cases", hc, by simp⟩

theorem cellsOkAt_rename {df : Frame} (h : CellsOkAt df) :
    CellsOkAt (renameCasesToConfirmed df) := by
  intro r hr i hi hname
  have hi2 : i < df.cols.length := by simpa [renameCasesToConfirmed] using hi
  apply h r hr i hi2
  rw [show (renameCasesToConfirmed df).cols =
      df.cols.map (fun c => if c = "cases" then "confirmed" else c) from rfl] at hname
  rw [getD_map_str _ df.cols i hi2] at hname
  by_cases hc : df.cols.getD i "" = "cases"
  · exact Or.inr hc
  · rw [if_neg hc] at hname
    exact hname

theorem rowsRect_rename {df : Frame} (h : RowsRect df) :
    RowsRect (renameCasesToConfirmed df) := by
  intro r hr
  simpa [renameCasesToConfirmed] using h r hr

theorem setCol_new_eq {name : String} {df : Frame} {vals : List Val}
    (hnm : idxsOf name df.cols = []) :
    setCol name vals df =
      { cols := df.cols ++ [name], rows := List.zipWith (fun r v => r ++ [v]) df.rows vals } := by
  unfold setCol
  rw [hnm]

theorem astypeIntVal_ok_of_okCell {v : Val} (h : okConfirmedCell v = true) :
    ∃ n, astypeIntVal v = .ok n := by
  cases v with
  | na => exact ⟨0, rfl⟩
  | int n => exact ⟨n, rfl⟩
  | rat q => exact ⟨ratTrunc q, rfl⟩
  | date d => exact ⟨d, rfl⟩
  | str s =>
    simp only [okConfirmedCell, Option.isSome_iff_exists] at h
    obtain ⟨n, hn⟩ := h
    exact ⟨n, by simp only [astypeIntVal, hn]⟩

theorem coerceColAt_ok_cols {k : Nat} {df df2 : Frame} (h : coerceColAt k df = .ok df2) :
    df2.cols = df.cols := by
  unfold coerceColAt at h
  split at h
  · cases h
  · cases h
    rfl

theorem coerceConfirmed_ok {df : Frame} {k : Nat}
    (hidx : idxsOf "confirmed" df.cols = [k])
    (hall : ∀ r ∈ df.rows, okConfirmedCell (r.getD k .na) = true) :
    ∃ df2, coerceConfirmed df = .ok df2 ∧ df2.cols = df.cols := by
  have hcoe : ∃ df2, coerceColAt k df = .ok df2 := by
    unfold coerceColAt
    have hmap : ∀ r ∈ df.rows, ∃ b, (fun r2 : List Val =>
        match astypeIntVal (r2.getD k .na) with
        | .error e => (.error e : Except Err (List Val))
        | .ok n => .ok (r2.set k (.int n))) r = .ok b := by
      intro r hr
      obtain ⟨n, hn⟩ := astypeIntVal_ok_of_okCell (hall r hr)
      exact ⟨r.set k (.int n), by simp only [hn]⟩
    obtain ⟨out, hout⟩ := mapME_ok_of_all hmap
    refine ⟨{ df with rows := out }, ?_⟩
    simp only [hout]
  obtain ⟨df2, h2⟩ := hcoe
  refine ⟨df2, ?_, coerceColAt_ok_cols h2⟩
  unfold coerceConfirmed
  rw [hidx]
  simp only [coerceIdxs, h2]

theorem sortByCol_cols (name : String) (df : Frame) : (sortByCol name df).cols = df.cols := by
  unfold sortByCol
  split <;> rfl

theorem getSingleIntCol_ok {name : String} {df : Frame} {k : Nat}
    (hidx : idxsOf name df.cols = [k]) :
    ∃ c, getSingleIntCol name df = .ok c := by
  simp only [getSingleIntCol, hidx]
  exact ⟨_, rfl⟩

/- ================= Error discipline (C5): the synthesized column ================= -/

theorem zipWith_append_const (x : Val) : ∀ l : List (List Val),
    List.zipWith (fun r v => r ++ [v]) l (l.map (fun _ => x)) = l.map (fun r => r ++ [x])
  | [] => rfl
  | a :: t => by
    simp only [List.map_cons, List.zipWith_cons_cons, List.map]
    rw [zipWith_append_const x t]

theorem getD_append_self (l : List Val) (x d : Val) : (l ++ [x]).getD l.length d = x := by
  rw [List.getD_eq_getElem _ d (by simp)]
  simp

theorem getD_append_left (l : List Val) (x d : Val) (j : Nat) (h : j < l.length) :
    (l ++ [x]).getD j d = l.getD j d := by
  rw [List.getD_eq_getElem _ d (by simp; omega), List.getD_eq_getElem _ d h]
  exact List.getElem_append_left h

theorem getD_append_left_str (l : List String) (x : String) (j : Nat) (h : j < l.length) :
    (l ++ [x]).getD j "" = l.getD j "" := by
  rw [List.getD_eq_getElem _ _ (by simp; omega), List.getD_eq_getElem _ _ h]
  exact List.getElem_append_left h

/- ================= Error discipline (C5): main theorem ================= -/

theorem idxsOf_ne_nil_of_mem {name : String} {cols : List String} (h : name ∈ cols) :
    idxsOf name cols ≠ [] := by
  obtain ⟨n, hn, hcn⟩ := List.mem_iff_getElem.mp h
  intro hnil
  have hmem : n ∈ idxsOf name cols :=
    mem_idxsOf.mpr ⟨hn, by rw [List.getD_eq_getElem _ _ hn]; exact hcn⟩
  rw [hnil] at hmem
  cases hmem

theorem sortValues_ok_of_mem {name : String} {df : Frame} (h : name ∈ df.cols) :
    sortValues name df = .ok (sortByCol name df) := by
  unfold sortValues
  rw [if_neg (idxsOf_ne_nil_of_mem h)]

theorem confirm_tail_ok (dcol : String) {dfE : Frame} {k : Nat}
    (hidxK : idxsOf "confirmed" dfE.cols = [k])
    (hall : ∀ r ∈ dfE.rows, okConfirmedCell (r.getD k .na) = true)
    (hdm : dcol ∈ dfE.cols) :
    ∃ dfF c, coerceConfirmed dfE = .ok dfF ∧
      sortValues dcol dfF = .ok (sortByCol dcol dfF) ∧
      getSingleIntCol "confirmed" (sortByCol dcol dfF) = .ok c := by
  obtain ⟨dfF, hco, hcolsF⟩ := coerceConfirmed_ok hidxK hall
  have hdmF : dcol ∈ dfF.cols := by
    rw [hcolsF]
    exact hdm
  have hidxSort : idxsOf "confirmed" (sortByCol dcol dfF).cols = [k] := by
    rw [sortByCol_cols, hcolsF]
    exact hidxK
  obtain ⟨c, hgs⟩ := getSingleIntCol_ok hidxSort
  exact ⟨dfF, c, hco, sortValues_ok_of_mem hdmF, hgs⟩

/-- Claim C5, amended: for a rectangular table whose normalized column
names are pairwise distinct, whose `confirmed`/`cases` values are
numeric or missing, and whose selected date column is not a `cases`
column that the rename removes (it may be `cases` only alongside a
`confirmed` column), `process` raises only the fatal unparseable-date
error, and only when some value of the selected date column fails to
parse.  Outside those conditions other errors do escape: a duplicated
normalized date column, a non-numeric confirmed value, or a fallback
date column named `cases` renamed away before the sort each raise an
error that is not UnparseableDate. -/
theorem c5_errors_only_unparseable (today : Int) (df : Frame) (country : String)
    (th : Thresholds) (e : Err)
    (hnd : (df.cols.map to_snake_case).Nodup)
    (hok : ConfirmedOk df)
    (hrect : RowsRect df)
    (hdc : pickDateCol (df.cols.map to_snake_case) = "cases" →
      "confirmed" ∈ df.cols.map to_snake_case)
    (herr : process_country_df today df country th = .error e) :
    e = Err.unparseableDate ∧
    ∃ r ∈ df.rows, ∃ i s, i < df.cols.length ∧
      (df.cols.map to_snake_case).getD i "" = pickDateCol (df.cols.map to_snake_case) ∧
      r.getD i .na = .str s ∧ parseDate s = none := by
  by_cases hemp : df.isEmptyF
  · simp [process_country_df, if_pos hemp] at herr
  · simp only [process_country_df, if_neg hemp] at herr
    have hcolsne : df.cols ≠ [] := fun hc => hemp (Or.inr hc)
    have hnd1 : (normalize_columns df).cols.Nodup := hnd
    have hne1 : (normalize_columns df).cols ≠ [] := by
      simp only [normalize_columns, ne_eq, List.map_eq_nil_iff]
      exact hcolsne
    obtain ⟨i, hidx⟩ := idxsOf_singleton hnd1 (pickDateCol_mem hne1)
    have hiprops := mem_idxsOf.mp (hidx ▸ List.mem_cons_self i [])
    cases h1 : toDatetimeCol (pickDateCol (normalize_columns df).cols) (normalize_columns df) with
    | error e1 =>
      simp only [h1, Except.error.injEq] at herr
      obtain ⟨hu, r, hr, s, hs, hps⟩ := toDatetimeCol_error hidx h1
      rw [herr] at hu
      refine ⟨hu, r, hr, i, s, ?_, ?_, hs, hps⟩
      · have := hiprops.1
        simpa [normalize_columns] using this
      · exact hiprops.2
    | ok dfA =>
      exfalso
      simp only [h1] at herr
      obtain ⟨hokA, hrectA, hcolsA⟩ :=
        invariants_toDatetimeCol hidx h1 (cellsOkAt_normalize hok) (rowsRect_normalize hrect)
      have hidxA : idxsOf (pickDateCol (normalize_columns df).cols) dfA.cols = [i] := by
        rw [hcolsA]
        exact hidx
      set dfB := filterWindow today (pickDateCol (normalize_columns df).cols) dfA with hdfB
      have hfw : dfB = { dfA with rows := dfA.rows.filter (inWindow today i) } :=
        filterWindow_eq hidxA
      have hcolsB : dfB.cols = dfA.cols := by rw [hfw]
      have hsubB : ∀ r ∈ dfB.rows, r ∈ dfA.rows := by
        rw [hfw]
        exact fun r hr => (List.mem_filter.mp hr).1
      have hokB := cellsOkAt_of_sub hcolsB hsubB hokA
      have hrectB := rowsRect_of_sub hcolsB hsubB hrectA
      have hdatesB : ∀ r ∈ dfB.rows, ∃ d, r.getD i .na = .date d := by
        rw [hfw]
        intro r hr
        obtain ⟨d, hd, _, _⟩ := (inWindow_iff today i r).mp (List.mem_filter.mp hr).2
        exact ⟨d, hd⟩
      have hidxB : idxsOf (pickDateCol (normalize_columns df).cols) dfB.cols = [i] := by
        rw [hcolsB]
        exact hidxA
      obtain ⟨dfC, h2⟩ := toDatetimeCol_ok_of_all hidxB (fun r hr => by
        obtain ⟨d, hd⟩ := hdatesB r hr
        exact ⟨.date d, by rw [hd]; rfl⟩)
      simp only [h2] at herr
      obtain ⟨hokC, hrectC, hcolsC⟩ := invariants_toDatetimeCol hidxB h2 hokB hrectB
      have hColsC : dfC.cols = df.cols.map to_snake_case := by
        rw [hcolsC, hcolsB, hcolsA]
        rfl
      have hndC : dfC.cols.Nodup := by
        rw [hColsC]
        exact hnd
      have hdcm : pickDateCol (normalize_columns df).cols ∈ dfC.cols := by
        rw [hcolsC, hcolsB, hcolsA]
        exact pickDateCol_mem hne1
      by_cases hcc : "confirmed" ∈ dfC.cols
      · have hcond1 : ¬("confirmed" ∉ dfC.cols ∧ "cases" ∈ dfC.cols) := fun h => h.1 hcc
        rw [if_neg hcond1] at herr
        rw [if_neg (not_not_intro hcc)] at herr
        obtain ⟨k, hidxK⟩ := idxsOf_singleton hndC hcc
        have hkp := mem_idxsOf.mp (hidxK ▸ List.mem_cons_self k [])
        have hallK : ∀ r ∈ dfC.rows, okConfirmedCell (r.getD k .na) = true :=
          fun r hr => hokC r hr k hkp.1 (Or.inl hkp.2)
        obtain ⟨dfF, c, hco, hsv, hgs⟩ :=
          confirm_tail_ok (pickDateCol (normalize_columns df).cols) hidxK hallK hdcm
        simp only [hco, hsv, hgs] at herr
        exact Except.noConfusion herr
      · by_cases hcase : "cases" ∈ dfC.cols
        · have hcond1 : "confirmed" ∉ dfC.cols ∧ "cases" ∈ dfC.cols := ⟨hcc, hcase⟩
          rw [if_pos hcond1] at herr
          have hmemD : "confirmed" ∈ (renameCasesToConfirmed dfC).cols :=
            confirmed_mem_rename hcase
          rw [if_neg (not_not_intro hmemD)] at herr
          have hndD : (renameCasesToConfirmed dfC).cols.Nodup := nodup_rename hndC hcc
          obtain ⟨k, hidxK⟩ := idxsOf_singleton hndD hmemD
          have hkp := mem_idxsOf.mp (hidxK ▸ List.mem_cons_self k [])
          have hokD := cellsOkAt_rename hokC
          have hallK : ∀ r ∈ (renameCasesToConfirmed dfC).rows,
              okConfirmedCell (r.getD k .na) = true :=
            fun r hr => hokD r hr k hkp.1 (Or.inl hkp.2)
          have hdcneq : pickDateCol (normalize_columns df).cols ≠ "cases" := by
            intro hdq
            apply hcc
            rw [hColsC]
            exact hdc hdq
          have hdmD : pickDateCol (normalize_columns df).cols ∈
              (renameCasesToConfirmed dfC).cols := by
            show pickDateCol (normalize_columns df).cols ∈
              dfC.cols.map (fun c => if c = "cases" then "confirmed" else c)
            refine List.mem_map.mpr ⟨pickDateCol (normalize_columns df).cols, hdcm, ?_⟩
            rw [if_neg hdcneq]
          obtain ⟨dfF, c, hco, hsv, hgs⟩ :=
            confirm_tail_ok (pickDateCol (normalize_columns df).cols) hidxK hallK hdmD
          simp only [hco, hsv, hgs] at herr
          exact Except.noConfusion herr
        · have hcond1 : ¬("confirmed" ∉ dfC.cols ∧ "cases" ∈ dfC.cols) := fun h => hcase h.2
          rw [if_neg hcond1] at herr
          rw [if_pos hcc] at herr
          have hEeq : setCol "confirmed" (dfC.rows.map (fun _ => Val.int 0)) dfC =
              { cols := dfC.cols ++ ["confirmed"],
                rows := List.zipWith (fun r v => r ++ [v]) dfC.rows
                  (dfC.rows.map (fun _ => Val.int 0)) } :=
            setCol_new_eq (idxsOf_nil_of_not_mem hcc)
          have hndE : (dfC.cols ++ ["confirmed"]).Nodup := by
            simp [List.nodup_append, hndC, hcc]
          have hmemE : "confirmed" ∈ dfC.cols ++ ["confirmed"] := by simp
          obtain ⟨k, hidxK⟩ := idxsOf_singleton hndE hmemE
          have hkp := mem_idxsOf.mp (hidxK ▸ List.mem_cons_self k [])
          have hklen : k = dfC.cols.length := by
            rcases Nat.lt_or_ge k dfC.cols.length with hlt | hge
            · exfalso
              have hgd := hkp.2
              rw [getD_append_left_str _ _ _ hlt] at hgd
              apply hcc
              rw [← hgd, List.getD_eq_getElem _ _ hlt]
              exact List.getElem_mem hlt
            · have hlt2 := hkp.1
              simp only [List.length_append, List.length_cons, List.length_nil] at hlt2
              omega
          subst hklen
          have hallK : ∀ r2 ∈ (List.zipWith (fun r v => r ++ [v]) dfC.rows
              (dfC.rows.map (fun _ => Val.int 0))),
              okConfirmedCell (r2.getD dfC.cols.length .na) = true := by
            rw [zipWith_append_const]
            intro r2 hr2
            obtain ⟨r, hr, rfl⟩ := List.mem_map.mp hr2
            rw [← hrectC r hr, getD_append_self]
            rfl
          have hidxE : idxsOf "confirmed"
              (setCol "confirmed" (dfC.rows.map (fun _ => Val.int 0)) dfC).cols =
              [dfC.cols.length] := by
            rw [hEeq]
            exact hidxK
          have hallE : ∀ r2 ∈ (setCol "confirmed" (dfC.rows.map (fun _ => Val.int 0)) dfC).rows,
              okConfirmedCell (r2.getD dfC.cols.length .na) = true := by
            rw [hEeq]
            exact hallK
          have hdmE : pickDateCol (normalize_columns df).cols ∈
              (setCol "confirmed" (dfC.rows.map (fun _ => Val.int 0)) dfC).cols := by
            rw [hEeq]
            exact List.mem_append_left _ hdcm
          obtain ⟨dfF, c, hco, hsv, hgs⟩ :=
            confirm_tail_ok (pickDateCol (normalize_columns df).cols) hidxE hallE hdmE
          simp only [hco, hsv, hgs] at herr
          exact Except.noConfusion herr

/-- Witness for C5: a frame with an unparseable date string and a
numeric confirmed column satisfies the hypotheses, raises
UnparseableDate, and exhibits the bad cell. -/
theorem c5_errors_only_unparseable_witness :
    Err.unparseableDate = Err.unparseableDate ∧
    ∃ r ∈ (Frame.mk ["date", "confirmed"] [[Val.str "garbage", Val.int 1]]).rows,
      ∃ i s, i < (Frame.mk ["date", "confirmed"] [[Val.str "garbage", Val.int 1]]).cols.length ∧
        ((Frame.mk ["date", "confirmed"] [[Val.str "garbage", Val.int 1]]).cols.map
            to_snake_case).getD i "" =
          pickDateCol ((Frame.mk ["date", "confirmed"] [[Val.str "garbage", Val.int 1]]).cols.map
            to_snake_case) ∧
        r.getD i .na = .str s ∧ parseDate s = none :=
  c5_errors_only_unparseable 19732 ⟨["date", "confirmed"], [[Val.str "garbage", Val.int 1]]⟩
    "MX" ⟨some 5, some 20, none⟩ Err.unparseableDate
    (by decide)
    (by unfold ConfirmedOk; decide)
    (by unfold RowsRect; decide)
    (by decide)
    rfl

/-- Counterexample for C5 as stated: two data-shape variations the
claim says are handled raise an error other than UnparseableDate with
every date value parseable.  Columns normalizing to the duplicate name
`date` make the date conversion raise; and a single numeric `cases`
column — the wrong-date-column case — is renamed to `confirmed`, so the
later sort on the vanished label raises. -/
theorem c5_counterexample :
    process_country_df 19732 ⟨["Date", "date"], [[Val.str "2024-01-01", Val.str "2024-01-01"]]⟩
        "MX" ⟨some 5, some 20, none⟩ = .error .other ∧
    process_country_df 10 ⟨["cases"], [[Val.int 5]]⟩
        "MX" ⟨some 5, some 20, none⟩ = .error .other ∧
    Err.other ≠ Err.unparseableDate ∧
    parseDate "2024-01-01" ≠ none :=
  ⟨rfl, rfl, by decide, by decide⟩
